import Mathlib

/-!
Shallow embedding of the QuickAdrLogcat log-ingestion pipeline.

Source files embedded here:
- src/QuickAdrLogcat/src/workers/logParser.worker.js
  (line reassembly via split on a newline, the record parser built on
  logRegex, the size/time batch scheduler, and the clear command), and
- src/QuickAdrLogcat/src/components/LogcatViewer.jsx
  (the consumer-side aggregation buffer: onmessage handler, the
  coalescing timer and the bounded logs view).

JS strings are modelled as List Char. setTimeout timers are modelled by an
Option Nat holding the absolute firing deadline (some d = a timer armed to
fire at time d, none = no timer). Math.random is modelled as an external
stream of draw strings, rnd : Nat -> List Char, consumed at an index kept
in the worker state; at the level of a single parse call the draw is an
explicit argument.
-/

namespace QuickAdrLogcat

/-- Text is modelled as a list of characters. -/
abbrev Str := List Char

/-- JS digit class: the regex token for a decimal digit matches exactly 0-9. -/
def isDigitJS (c : Char) : Bool := '0' ≤ c && c ≤ '9'

/-- JS whitespace class: the regex whitespace token matches space, tab, line
feed, vertical tab, form feed, carriage return, and the Unicode space
characters U+00A0, U+1680, U+2000-U+200A, U+2028, U+2029, U+202F, U+205F,
U+3000, U+FEFF. -/
def isSpaceJS (c : Char) : Bool :=
  c == ' ' || c == '\t' || c == '\n' || c.toNat == 0x0b || c.toNat == 0x0c ||
  c == '\r' || c.toNat == 0xa0 || c.toNat == 0x1680 ||
  (0x2000 ≤ c.toNat && c.toNat ≤ 0x200a) || c.toNat == 0x2028 ||
  c.toNat == 0x2029 || c.toNat == 0x202f || c.toNat == 0x205f ||
  c.toNat == 0x3000 || c.toNat == 0xfeff

/-- The character class [VDIWEAF] of logRegex. -/
def isLevelChar (c : Char) : Bool :=
  c == 'V' || c == 'D' || c == 'I' || c == 'W' || c == 'E' || c == 'A' || c == 'F'

/-- The character class [^:] of logRegex. -/
def isNotColon (c : Char) : Bool := !(c == ':')

/-- The JS dot (without the dotAll flag): any character except the line
terminators LF, CR, U+2028, U+2029. -/
def isDotChar (c : Char) : Bool :=
  !(c == '\n' || c == '\r' || c.toNat == 0x2028 || c.toNat == 0x2029)

/-- One element of a flattened regular expression: a single-character class,
a greedy one-or-more repetition of a class, or a lazy one-or-more repetition
of a class. The Option Nat records which capture group (1-based) the element
belongs to, none meaning it is outside every capture group. -/
inductive RItem where
  | one : Option Nat → (Char → Bool) → RItem
  | plusGreedy : Option Nat → (Char → Bool) → RItem
  | plusLazy : Option Nat → (Char → Bool) → RItem

/-- Backtracking matcher anchored at the start of the input, with the JS
priority order: a greedy repetition first tries to consume another character
and only then hands over to the rest of the pattern, a lazy repetition first
hands over to the rest of the pattern and only then consumes another
character. On success it returns the matched characters, each tagged with
its capture group, together with the unconsumed remainder of the input. -/
def runItems : Str → List RItem → Option (List (Option Nat × Char) × Str)
  | s, [] => some ([], s)
  | [], _ :: _ => none
  | c :: s, RItem.one g p :: rest =>
      if p c then (runItems s rest).map (fun t => ((g, c) :: t.1, t.2)) else none
  | c :: s, RItem.plusGreedy g p :: rest =>
      if p c then
        match runItems s (RItem.plusGreedy g p :: rest) with
        | some t => some ((g, c) :: t.1, t.2)
        | none => (runItems s rest).map (fun t => ((g, c) :: t.1, t.2))
      else none
  | c :: s, RItem.plusLazy g p :: rest =>
      if p c then
        match runItems s rest with
        | some t => some ((g, c) :: t.1, t.2)
        | none =>
          (runItems s (RItem.plusLazy g p :: rest)).map
            (fun t => ((g, c) :: t.1, t.2))
      else none

/-- Unanchored search, as performed by String.match with a non-global,
non-anchored JS regex: try to match at each successive start position,
returning the first (leftmost) match. -/
def searchItems (items : List RItem) : Str → Option (List (Option Nat × Char))
  | [] => (runItems [] items).map Prod.fst
  | c :: s =>
      match runItems (c :: s) items with
      | some t => some t.1
      | none => searchItems items s

/-- The characters captured by group g in a match result. -/
def capture (g : Nat) (t : List (Option Nat × Char)) : Str :=
  t.filterMap (fun x => if x.1 = some g then some x.2 else none)

/-- logRegex from logParser.worker.js, flattened:
a timestamp group of two digits, a dash, two digits, a whitespace, two
digits, a colon, two digits, a colon, two digits, a dot and three digits
(group 1); then one-or-more whitespace; a greedy digit run (group 2, the
pid); whitespace; a greedy digit run (group 3, the tid); whitespace; one
level letter from VDIWEAF (group 4); whitespace; a lazy run of non-colon
characters (group 5, the tag); a literal colon; whitespace; and a greedy
run of dot-class characters (group 6, the message). -/
def logRegex : List RItem :=
  [ .one (some 1) isDigitJS, .one (some 1) isDigitJS,
    .one (some 1) (fun c => c == '-'),
    .one (some 1) isDigitJS, .one (some 1) isDigitJS,
    .one (some 1) isSpaceJS,
    .one (some 1) isDigitJS, .one (some 1) isDigitJS,
    .one (some 1) (fun c => c == ':'),
    .one (some 1) isDigitJS, .one (some 1) isDigitJS,
    .one (some 1) (fun c => c == ':'),
    .one (some 1) isDigitJS, .one (some 1) isDigitJS,
    .one (some 1) (fun c => c == '.'),
    .one (some 1) isDigitJS, .one (some 1) isDigitJS, .one (some 1) isDigitJS,
    .plusGreedy none isSpaceJS,
    .plusGreedy (some 2) isDigitJS,
    .plusGreedy none isSpaceJS,
    .plusGreedy (some 3) isDigitJS,
    .plusGreedy none isSpaceJS,
    .one (some 4) isLevelChar,
    .plusGreedy none isSpaceJS,
    .plusLazy (some 5) isNotColon,
    .one none (fun c => c == ':'),
    .plusGreedy none isSpaceJS,
    .plusGreedy (some 6) isDotChar ]

/-- A parsed log record, as built by parseLogLine. -/
structure LogRecord where
  timestamp : Str
  pid : Str
  tid : Str
  level : Str
  tag : Str
  message : Str
  key : Str
  deriving DecidableEq, Repr

/-- parseLogLine from logParser.worker.js. The argument r is the string
rendering of the Math.random() draw made by this call; it is used only in
the key template timestamp-pid-tid-tag-random. On a regex mismatch the
function returns none (the JS function returns null). -/
def parseLogLine (r : Str) (line : Str) : Option LogRecord :=
  match searchItems logRegex line with
  | some t =>
      some { timestamp := capture 1 t
             pid := capture 2 t
             tid := capture 3 t
             level := capture 4 t
             tag := capture 5 t
             message := capture 6 t
             key := capture 1 t ++ '-' :: capture 2 t ++ '-' :: capture 3 t
                      ++ '-' :: capture 5 t ++ '-' :: r }
  | none => none

/-- JS String.split on the newline character: "a\nb" gives ["a","b"],
the empty string gives [""], and a trailing newline yields a trailing
empty piece. -/
def splitNL : Str → List Str
  | [] => [[]]
  | c :: s => if c = '\n' then [] :: splitNL s else (splitNL s).modifyHead (c :: ·)

/-- The line reassembly step of the process message handler (worker lines
buffer += data; lines = buffer.split; buffer = lines.pop() or the empty
string): append the chunk to the held buffer, split on newlines, return
every piece but the last as the complete lines, and keep the last piece as
the new buffer. -/
def reassemble (buffer data : Str) : List Str × Str :=
  let parts := splitNL (buffer ++ data)
  (parts.dropLast, parts.getLastD [])

/-- Feed a sequence of chunks through reassemble, threading the held
partial-line buffer and concatenating the emitted complete lines. -/
def reassembleAll (buffer : Str) : List Str → List Str × Str
  | [] => ([], buffer)
  | d :: ds =>
      let step := reassemble buffer d
      let rest := reassembleAll step.2 ds
      (step.1 ++ rest.1, rest.2)

/-- BATCH_INTERVAL from logParser.worker.js: send batches every 150 ms. -/
def BATCH_INTERVAL : Nat := 150

/-- BATCH_SIZE from logParser.worker.js: or when batch size reaches 200. -/
def BATCH_SIZE : Nat := 200

/-- The mutable state of logParser.worker.js: the line-reassembly buffer,
the pending batch parsedLogsBuffer, and timeoutId (some d when a setTimeout
is armed to fire at absolute time d). rndIdx is the index of the next
Math.random draw in the ambient random stream. -/
structure WorkerState where
  buffer : Str
  parsedLogsBuffer : List LogRecord
  timeoutId : Option Nat
  rndIdx : Nat
  deriving DecidableEq, Repr

/-- The worker state at script load: empty buffer, empty pending batch,
no timer; the random stream starts at index 0. -/
def initWorker : WorkerState :=
  { buffer := [], parsedLogsBuffer := [], timeoutId := none, rndIdx := 0 }

/-- sendBatch from logParser.worker.js: if the pending batch is non-empty,
post it as one message and empty it; in all cases cancel and forget any
armed timer. The second component collects the posted batches (empty or a
singleton). -/
def sendBatch (st : WorkerState) : WorkerState × List (List LogRecord) :=
  if st.parsedLogsBuffer.length > 0 then
    ({ st with parsedLogsBuffer := [], timeoutId := none },
     [st.parsedLogsBuffer])
  else
    ({ st with timeoutId := none }, [])

/-- Map parseLogLine over a list of complete lines, dropping the lines on
which it returns none, drawing the Math.random string for each successful
parse from rnd at successive indices starting at i; returns the parsed
records in order together with the next unused index. -/
def parseLines (rnd : Nat → Str) (i : Nat) : List Str → List LogRecord × Nat
  | [] => ([], i)
  | l :: ls =>
      match parseLogLine (rnd i) l with
      | some r =>
          let rest := parseLines rnd (i + 1) ls
          (r :: rest.1, rest.2)
      | none => parseLines rnd i ls

/-- The body of the newlyParsed.length > 0 branch of the process message
handler (and the shape §4.3 of the spec calls submit): append the records
to the pending batch; if it now holds BATCH_SIZE or more records flush it
immediately through sendBatch, otherwise arm a BATCH_INTERVAL timer if and
only if none is armed. now is the current time used to resolve setTimeout
into an absolute deadline. -/
def submit (now : Nat) (st : WorkerState) (records : List LogRecord) :
    WorkerState × List (List LogRecord) :=
  let st2 := { st with parsedLogsBuffer := st.parsedLogsBuffer ++ records }
  if st2.parsedLogsBuffer.length ≥ BATCH_SIZE then
    sendBatch st2
  else if st2.timeoutId = none then
    ({ st2 with timeoutId := some (now + BATCH_INTERVAL) }, [])
  else
    (st2, [])

/-- The process message handler of logParser.worker.js: append the chunk to
the reassembly buffer, split on newlines, keep the last piece (the
potentially incomplete line) as the new buffer, parse the complete lines,
and when anything parsed, submit it to the batching logic. -/
def processChunk (rnd : Nat → Str) (now : Nat) (st : WorkerState)
    (data : Str) : WorkerState × List (List LogRecord) :=
  let step := reassemble st.buffer data
  let newBuffer := step.2
  let lines := step.1
  if lines.length > 0 then
    let parsed := parseLines rnd st.rndIdx lines
    let st1 := { st with buffer := newBuffer, rndIdx := parsed.2 }
    if parsed.1.length > 0 then submit now st1 parsed.1
    else (st1, [])
  else
    ({ st with buffer := newBuffer }, [])

/-- The clear message handler of logParser.worker.js: empty the reassembly
buffer and the pending batch, cancel any armed timer, post nothing. -/
def clearWorker (st : WorkerState) : WorkerState × List (List LogRecord) :=
  ({ st with buffer := [], parsedLogsBuffer := [],
             timeoutId := none }, [])

/-- Firing of the worker's armed timer: the setTimeout callback is
sendBatch. -/
def workerTimerFire (st : WorkerState) : WorkerState × List (List LogRecord) :=
  sendBatch st

/-- MAX_LOGS from LogcatViewer.jsx: the log view cap. -/
def MAX_LOGS : Nat := 1000

/-- LOG_UPDATE_INTERVAL from LogcatViewer.jsx: the debounce interval of the
consumer-side log state update, in milliseconds. -/
def LOG_UPDATE_INTERVAL : Nat := 300

/-- JS Array.slice with a negative start index, slice(-n) for n ≥ 1: the
last n elements, or the whole array when it is shorter than n. -/
def sliceLast (n : Nat) (l : List α) : List α := l.drop (l.length - n)

/-- The setLogs updater of LogcatViewer.jsx: append the staged records to
the previous view and truncate to the last MAX_LOGS entries. -/
def mergeView (prevLogs logsToAdd : List LogRecord) : List LogRecord :=
  sliceLast MAX_LOGS (prevLogs ++ logsToAdd)

/-- The consumer-side state of LogcatViewer.jsx: the staging buffer
logBuffer, logUpdateTimeout (some d when the coalescing setTimeout is armed
to fire at absolute time d; the stored id lives in logUpdateTimeoutRef),
and the bounded view logs. -/
structure ViewerState where
  logBuffer : List LogRecord
  logUpdateTimeout : Option Nat
  logs : List LogRecord
  deriving DecidableEq, Repr

/-- The viewer state at mount: empty staging buffer, no timer, empty view. -/
def initViewer : ViewerState :=
  { logBuffer := [], logUpdateTimeout := none, logs := [] }

/-- The worker onmessage handler of LogcatViewer.jsx for a logs message
(the aggregation buffer's onBatch): when the payload is non-empty, push it
onto logBuffer, clear any armed coalescing timer, and arm a fresh one for
LOG_UPDATE_INTERVAL from now. -/
def onBatch (now : Nat) (st : ViewerState) (parsedLogs : List LogRecord) :
    ViewerState :=
  if parsedLogs.length > 0 then
    { st with logBuffer := st.logBuffer ++ parsedLogs,
              logUpdateTimeout := some (now + LOG_UPDATE_INTERVAL) }
  else st

/-- Firing of the viewer's coalescing timer: move logBuffer into the view
through the setLogs updater, empty logBuffer, forget the timer. -/
def viewerTimerFire (st : ViewerState) : ViewerState :=
  { logBuffer := [], logUpdateTimeout := none,
    logs := mergeView st.logs st.logBuffer }

/-- Folding the setLogs updater over a sequence of staged batches, starting
from an empty view. -/
def runMerges (batches : List (List LogRecord)) : List LogRecord :=
  batches.foldl mergeView []

/-- A concrete record used to instantiate the scheduler and buffer theorems
on explicit inputs. -/
def rec0 : LogRecord :=
  { timestamp := [], pid := [], tid := [], level := [], tag := [],
    message := [], key := [] }

/-- The content of a record: every field except the generated key. -/
def contentOf (rec : LogRecord) : Str × Str × Str × Str × Str × Str :=
  (rec.timestamp, rec.pid, rec.tid, rec.level, rec.tag, rec.message)

/-! ### Helper lemmas about lists -/

theorem modifyHead_ne_nil {l : List α} (f : α → α) (h : l ≠ []) :
    l.modifyHead f ≠ [] := by
  cases l with
  | nil => exact absurd rfl h
  | cons x m => simp

theorem getLastD_cons_of_ne_nil {L : List α} (x d : α) (h : L ≠ []) :
    (x :: L).getLastD d = L.getLastD d := by
  cases L with
  | nil => exact absurd rfl h
  | cons y m => simp [List.getLastD]

theorem dropLast_append_of_ne_nil {l₂ : List α} (l₁ : List α) (h : l₂ ≠ []) :
    (l₁ ++ l₂).dropLast = l₁ ++ l₂.dropLast := by
  induction l₁ with
  | nil => rfl
  | cons x m ih =>
      have hm : m ++ l₂ ≠ [] := by
        intro he
        rcases List.append_eq_nil.mp he with ⟨-, h2⟩
        exact h h2
      cases hc : m ++ l₂ with
      | nil => exact absurd hc hm
      | cons y r =>
          rw [List.cons_append, hc, List.dropLast_cons₂, ← hc, ih,
            List.cons_append]

theorem getLastD_append_of_ne_nil {l₂ : List α} (l₁ : List α) (d : α)
    (h : l₂ ≠ []) : (l₁ ++ l₂).getLastD d = l₂.getLastD d := by
  induction l₁ with
  | nil => rfl
  | cons x m ih =>
      have hm : m ++ l₂ ≠ [] := by
        intro he
        rcases List.append_eq_nil.mp he with ⟨-, h2⟩
        exact h h2
      rw [List.cons_append, getLastD_cons_of_ne_nil x d hm, ih]

/-! ### Lemmas about splitNL and the line reassembler -/

theorem splitNL_ne_nil (s : Str) : splitNL s ≠ [] := by
  induction s with
  | nil => simp [splitNL]
  | cons c s ih =>
      simp only [splitNL]
      split
      · simp
      · exact modifyHead_ne_nil _ ih

theorem splitNL_append (a b : Str) :
    splitNL (a ++ b)
      = (splitNL a).dropLast
          ++ (splitNL b).modifyHead (fun t => (splitNL a).getLastD [] ++ t) := by
  induction a with
  | nil =>
      cases h : splitNL b with
      | nil => exact absurd h (splitNL_ne_nil b)
      | cons x l => simp [splitNL, h, List.modifyHead_cons]
  | cons c a ih =>
      by_cases hc : c = '\n'
      · subst hc
        have e1 : splitNL ('\n' :: (a ++ b)) = [] :: splitNL (a ++ b) := by
          simp [splitNL]
        have e2 : splitNL ('\n' :: a) = [] :: splitNL a := by
          simp [splitNL]
        rcases h : splitNL a with _ | ⟨x, l⟩
        · exact absurd h (splitNL_ne_nil a)
        · rw [List.cons_append, e1, ih, e2, h]
          simp [List.getLastD]
      · have e1 : splitNL (c :: (a ++ b))
            = (splitNL (a ++ b)).modifyHead (c :: ·) := by
          simp [splitNL, hc]
        have e2 : splitNL (c :: a) = (splitNL a).modifyHead (c :: ·) := by
          simp [splitNL, hc]
        rw [List.cons_append, e1, ih, e2]
        rcases h : splitNL a with _ | ⟨x, _ | ⟨y, l⟩⟩
        · exact absurd h (splitNL_ne_nil a)
        · cases hb : splitNL b with
          | nil => exact absurd hb (splitNL_ne_nil b)
          | cons z m =>
              simp [List.getLastD, List.modifyHead_cons]
        · simp [List.getLastD, List.modifyHead_cons]

theorem splitNL_no_newline (b : Str) (h : ('\n' : Char) ∉ b) :
    splitNL b = [b] := by
  induction b with
  | nil => rfl
  | cons c s ih =>
      have hc : c ≠ '\n' := by
        intro he
        exact h (by simp [he])
      have hs : ('\n' : Char) ∉ s := by
        intro he
        exact h (by simp [he])
      simp [splitNL, hc, ih hs, List.modifyHead_cons]

theorem splitNL_getLastD_no_newline (s : Str) :
    ('\n' : Char) ∉ (splitNL s).getLastD [] := by
  induction s with
  | nil => simp [splitNL, List.getLastD]
  | cons c s ih =>
      by_cases hc : c = '\n'
      · subst hc
        have e : splitNL ('\n' :: s) = [] :: splitNL s := by simp [splitNL]
        rw [e, getLastD_cons_of_ne_nil _ _ (splitNL_ne_nil s)]
        exact ih
      · have e : splitNL (c :: s) = (splitNL s).modifyHead (c :: ·) := by
          simp [splitNL, hc]
        rw [e]
        rcases h : splitNL s with _ | ⟨x, _ | ⟨y, l⟩⟩
        · exact absurd h (splitNL_ne_nil s)
        · rw [h] at ih
          simp only [List.modifyHead_cons, List.getLastD] at ih ⊢
          intro he
          rcases List.mem_cons.mp he with h1 | h1
          · exact hc h1.symm
          · exact ih h1
        · rw [h] at ih
          simp only [List.modifyHead_cons]
          rw [getLastD_cons_of_ne_nil _ _ (by simp)] at ih ⊢
          exact ih

theorem splitNL_length (s : Str) :
    (splitNL s).length = s.count '\n' + 1 := by
  induction s with
  | nil => simp [splitNL]
  | cons c s ih =>
      by_cases hc : c = '\n'
      · subst hc
        simp [splitNL, List.count_cons, ih]
      · have e : splitNL (c :: s) = (splitNL s).modifyHead (c :: ·) := by
          simp [splitNL, hc]
        rw [e]
        cases h : splitNL s with
        | nil => exact absurd h (splitNL_ne_nil s)
        | cons x l =>
            rw [h] at ih
            simp only [List.modifyHead_cons, List.length_cons] at ih ⊢
            rw [List.count_cons]
            simp [hc, ih]

theorem reassembleAll_eq (chunks : List Str) (buffer : Str)
    (hb : ('\n' : Char) ∉ buffer) :
    reassembleAll buffer chunks
      = ((splitNL (buffer ++ chunks.flatten)).dropLast,
         (splitNL (buffer ++ chunks.flatten)).getLastD []) := by
  induction chunks generalizing buffer with
  | nil =>
      simp [reassembleAll, splitNL_no_newline buffer hb, List.getLastD]
  | cons d ds ih =>
      have hb' : ('\n' : Char) ∉ (splitNL (buffer ++ d)).getLastD [] :=
        splitNL_getLastD_no_newline (buffer ++ d)
      have key : splitNL (buffer ++ d ++ ds.flatten)
          = (splitNL (buffer ++ d)).dropLast
              ++ splitNL ((splitNL (buffer ++ d)).getLastD [] ++ ds.flatten) := by
        rw [splitNL_append (buffer ++ d) ds.flatten]
        rw [splitNL_append ((splitNL (buffer ++ d)).getLastD []) ds.flatten]
        rw [splitNL_no_newline _ hb']
        simp [List.getLastD]
      have hne : splitNL ((splitNL (buffer ++ d)).getLastD [] ++ ds.flatten) ≠ [] :=
        splitNL_ne_nil _
      simp only [reassembleAll, reassemble, ih _ hb']
      rw [List.flatten_cons, ← List.append_assoc, key,
        dropLast_append_of_ne_nil _ hne, getLastD_append_of_ne_nil _ _ hne]

/-! ### Lemmas about sliceLast and the merge of staged records -/

theorem sliceLast_length_le (n : Nat) (l : List α) :
    (sliceLast n l).length ≤ n := by
  simp only [sliceLast, List.length_drop]
  omega

theorem sliceLast_length (n : Nat) (l : List α) :
    (sliceLast n l).length = min n l.length := by
  simp only [sliceLast, List.length_drop]
  omega

theorem sliceLast_append_sliceLast (n : Nat) (a b : List α) :
    sliceLast n (sliceLast n a ++ b) = sliceLast n (a ++ b) := by
  simp only [sliceLast, List.length_append, List.length_drop]
  rw [List.drop_append_eq_append_drop, List.drop_append_eq_append_drop,
    List.drop_drop]
  simp only [List.length_drop]
  congr 1
  · congr 1
    omega
  · congr 1
    omega

theorem foldl_mergeView (bs : List (List LogRecord)) (acc : List LogRecord) :
    bs.foldl mergeView (sliceLast MAX_LOGS acc)
      = sliceLast MAX_LOGS (acc ++ bs.flatten) := by
  induction bs generalizing acc with
  | nil => simp [List.foldl_nil]
  | cons b bs ih =>
      rw [List.foldl_cons]
      have e : mergeView (sliceLast MAX_LOGS acc) b
          = sliceLast MAX_LOGS (acc ++ b) := by
        rw [mergeView, sliceLast_append_sliceLast]
      rw [e, ih (acc ++ b), List.flatten_cons, List.append_assoc]

/-! ### Lemmas about the generated keys -/

theorem dash_free_head_inj {u v x y : Str} (hu : ('-' : Char) ∉ u)
    (hv : ('-' : Char) ∉ v) (h : u ++ '-' :: x = v ++ '-' :: y) :
    u = v := by
  induction u generalizing v with
  | nil =>
      cases v with
      | nil => rfl
      | cons d v' =>
          rw [List.nil_append, List.cons_append] at h
          have : ('-' : Char) = d := List.head_eq_of_cons_eq h
          exact absurd (this ▸ List.mem_cons_self d v') hv
  | cons c u' ih =>
      cases v with
      | nil =>
          rw [List.nil_append, List.cons_append] at h
          have : c = ('-' : Char) := List.head_eq_of_cons_eq h
          exact absurd (this ▸ List.mem_cons_self c u') hu
      | cons d v' =>
          rw [List.cons_append, List.cons_append] at h
          have hcd : c = d := List.head_eq_of_cons_eq h
          have ht : u' ++ '-' :: x = v' ++ '-' :: y := List.tail_eq_of_cons_eq h
          have hu' : ('-' : Char) ∉ u' := fun hm => hu (List.mem_cons_of_mem c hm)
          have hv' : ('-' : Char) ∉ v' := fun hm => hv (List.mem_cons_of_mem d hm)
          rw [hcd, ih hu' hv' ht]

theorem key_suffix_inj {a b r s : Str} (hr : ('-' : Char) ∉ r)
    (hs : ('-' : Char) ∉ s) (h : a ++ '-' :: r = b ++ '-' :: s) : r = s := by
  have h' := congrArg List.reverse h
  simp only [List.reverse_append, List.reverse_cons, List.append_assoc,
    List.singleton_append] at h'
  have hr' : ('-' : Char) ∉ r.reverse := by simpa using hr
  have hs' : ('-' : Char) ∉ s.reverse := by simpa using hs
  have := dash_free_head_inj hr' hs' h'
  simpa using congrArg List.reverse this

/-! ### Lemma about dropping unparsable lines -/

theorem parseLines_all_unparsable (rnd : Nat → Str) (i : Nat)
    (lines : List Str)
    (h : ∀ l ∈ lines, searchItems logRegex l = none) :
    parseLines rnd i lines = ([], i) := by
  induction lines generalizing i with
  | nil => rfl
  | cons l ls ih =>
      have hl : parseLogLine (rnd i) l = none := by
        simp [parseLogLine, h l (List.mem_cons_self l ls)]
      simp [parseLines, hl,
        ih i (fun x hx => h x (List.mem_cons_of_mem l hx))]


/-! ### The claims -/

/-- C1 (counterexample): the claim that a logs message arriving while the
coalescing timer is armed leaves the existing timer untouched is false: with
a timer armed to fire at time 300, a one-record batch arriving at time 100
replaces it by a timer firing at time 400. -/
theorem onBatch_keeps_timer_counterexample :
    (onBatch 100
        { logBuffer := [], logUpdateTimeout := some 300, logs := [] }
        [rec0]).logUpdateTimeout
      ≠ ({ logBuffer := [], logUpdateTimeout := some 300, logs := [] }
          : ViewerState).logUpdateTimeout := by
  decide

/-- C1 (amended): every onBatch call with a non-empty payload cancels any
armed coalescing timer and arms a fresh one for LOG_UPDATE_INTERVAL (300 ms)
after the arrival, so the staging window is a sliding (debounce) window
extended by every new batch, not a fixed-delay window; the payload is
appended to the staging buffer and the view is untouched. -/
theorem onBatch_slides_window (now : Nat) (st : ViewerState)
    (parsedLogs : List LogRecord) (h : parsedLogs.length > 0) :
    (onBatch now st parsedLogs).logUpdateTimeout
        = some (now + LOG_UPDATE_INTERVAL)
    ∧ (onBatch now st parsedLogs).logBuffer = st.logBuffer ++ parsedLogs
    ∧ (onBatch now st parsedLogs).logs = st.logs := by
  simp [onBatch, h]

/-- Witness for the amended C1 at a concrete armed state. -/
theorem onBatch_slides_window_witness :
    (onBatch 100
        { logBuffer := [], logUpdateTimeout := some 300, logs := [] }
        [rec0]).logUpdateTimeout = some (100 + LOG_UPDATE_INTERVAL) :=
  (onBatch_slides_window 100
    { logBuffer := [], logUpdateTimeout := some 300, logs := [] }
    [rec0] (by decide)).1

/-- C2: for every sequence of merges into the view (starting from the empty
view), the view equals the last MAX_LOGS records of the full arrival
sequence in order, never holds more than MAX_LOGS records, and holds exactly
MAX_LOGS records once at least MAX_LOGS records have been merged. -/
theorem view_bounded_fifo (batches : List (List LogRecord)) :
    runMerges batches = sliceLast MAX_LOGS batches.flatten
    ∧ (runMerges batches).length ≤ MAX_LOGS
    ∧ (MAX_LOGS ≤ batches.flatten.length →
        (runMerges batches).length = MAX_LOGS) := by
  have h0 : runMerges batches = sliceLast MAX_LOGS batches.flatten := by
    have h := foldl_mergeView batches []
    rw [show sliceLast MAX_LOGS ([] : List LogRecord) = [] from rfl,
      List.nil_append] at h
    exact h
  refine ⟨h0, ?_, ?_⟩
  · rw [h0]
    exact sliceLast_length_le _ _
  · intro hlen
    rw [h0, sliceLast_length]
    omega

/-- Witness for C2: merging 1000 records and then one more leaves exactly
the most recent 1000 in the view. -/
theorem view_bounded_fifo_witness :
    (runMerges [List.replicate MAX_LOGS rec0, [rec0]]).length = MAX_LOGS :=
  (view_bounded_fifo [List.replicate MAX_LOGS rec0, [rec0]]).2.2
    (by
      simp only [List.flatten_cons, List.flatten_nil, List.append_nil,
        List.length_append, List.length_replicate, List.length_cons,
        List.length_nil]
      omega)

/-- C3: starting from an empty partial-line buffer, feeding any sequence of
chunks through the reassembler emits exactly the newline-terminated lines of
the concatenation of the chunks (each the corresponding piece between
separators, in order), keeps the trailing unterminated piece in the buffer,
and the number of emitted lines is the number of newline characters in the
concatenation - all independent of where the chunk boundaries fall. -/
theorem reassembler_boundary_independent (chunks : List Str) :
    (reassembleAll [] chunks).1 = (splitNL chunks.flatten).dropLast
    ∧ (reassembleAll [] chunks).2 = (splitNL chunks.flatten).getLastD []
    ∧ (reassembleAll [] chunks).1.length = chunks.flatten.count '\n' := by
  have h := reassembleAll_eq chunks [] (by simp)
  rw [List.nil_append] at h
  refine ⟨by rw [h], by rw [h], ?_⟩
  rw [h]
  simp only [List.length_dropLast, splitNL_length]
  omega

/-- C4: for every submit of records into the batch scheduler: if the pending
batch reaches BATCH_SIZE (200) or more it is emitted immediately and any
armed timer is cancelled; if it stays below 200 and no timer is armed, a
timer for BATCH_INTERVAL (150 ms) after the arrival is armed; if a timer is
already armed nothing is emitted and the armed timer is kept as it is. -/
theorem submit_dual_trigger (now : Nat) (st : WorkerState)
    (records : List LogRecord) :
    (BATCH_SIZE ≤ (st.parsedLogsBuffer ++ records).length →
        submit now st records
          = ({ st with parsedLogsBuffer := [], timeoutId := none },
             [st.parsedLogsBuffer ++ records]))
    ∧ ((st.parsedLogsBuffer ++ records).length < BATCH_SIZE →
        st.timeoutId = none →
        submit now st records
          = ({ st with
               parsedLogsBuffer := st.parsedLogsBuffer ++ records,
               timeoutId := some (now + BATCH_INTERVAL) }, []))
    ∧ ((st.parsedLogsBuffer ++ records).length < BATCH_SIZE →
        ∀ d : Nat, st.timeoutId = some d →
        submit now st records
          = ({ st with
               parsedLogsBuffer := st.parsedLogsBuffer ++ records,
               timeoutId := some d }, [])) := by
  refine ⟨?_, ?_, ?_⟩
  · intro h
    have h' : BATCH_SIZE ≤ st.parsedLogsBuffer.length + records.length := by
      simpa using h
    have hB : BATCH_SIZE = 200 := rfl
    have hpos : 0 < st.parsedLogsBuffer.length ∨ 0 < records.length := by
      omega
    simp [submit, sendBatch, h', hpos]
  · intro h ht
    have h' : ¬ BATCH_SIZE ≤ st.parsedLogsBuffer.length + records.length := by
      simp only [List.length_append] at h
      omega
    simp [submit, ht, h']
  · intro h d ht
    have h' : ¬ BATCH_SIZE ≤ st.parsedLogsBuffer.length + records.length := by
      simp only [List.length_append] at h
      omega
    simp [submit, ht, h']

/-- Witness for C4: from the empty worker state, 200 records flush
immediately with the timer disarmed; 1 record arms a timer for 150 ms; a
further record while that timer is armed leaves it untouched. -/
theorem submit_dual_trigger_witness :
    submit 0 initWorker (List.replicate 200 rec0)
      = ({ initWorker with parsedLogsBuffer := [], timeoutId := none },
         [List.replicate 200 rec0])
    ∧ submit 7 initWorker [rec0]
      = ({ initWorker with
           parsedLogsBuffer := [rec0],
           timeoutId := some (7 + BATCH_INTERVAL) }, [])
    ∧ submit 9
        { initWorker with
          parsedLogsBuffer := [rec0],
          timeoutId := some 157 } [rec0]
      = ({ initWorker with
           parsedLogsBuffer := [rec0, rec0],
           timeoutId := some 157 }, []) := by
  refine ⟨?_, ?_, ?_⟩
  · have h := (submit_dual_trigger 0 initWorker (List.replicate 200 rec0)).1
      (by
        simp only [initWorker, List.nil_append, List.length_replicate]
        exact Nat.le_refl _)
    rw [show initWorker.parsedLogsBuffer ++ List.replicate 200 rec0
        = List.replicate 200 rec0 from List.nil_append _] at h
    exact h
  · have h := (submit_dual_trigger 7 initWorker [rec0]).2.1
      (by decide) rfl
    exact h
  · have h := (submit_dual_trigger 9
        { initWorker with
          parsedLogsBuffer := [rec0],
          timeoutId := some 157 } [rec0]).2.2
      (by decide) 157 rfl
    exact h

/-- C5: parsing is pure apart from the key: the parse outcome and every
field except key are independent of the Math.random draw; and any two
parse calls whose draws are distinct dash-free strings produce records with
distinct keys. -/
theorem parse_pure_fresh_keys :
    (∀ (r1 r2 line : Str),
        (parseLogLine r1 line).map contentOf
          = (parseLogLine r2 line).map contentOf)
    ∧ (∀ (r1 r2 line1 line2 : Str) (rec1 rec2 : LogRecord),
        parseLogLine r1 line1 = some rec1 →
        parseLogLine r2 line2 = some rec2 →
        r1 ≠ r2 → ('-' : Char) ∉ r1 → ('-' : Char) ∉ r2 →
        rec1.key ≠ rec2.key) := by
  constructor
  · intro r1 r2 line
    cases hs : searchItems logRegex line <;> simp [parseLogLine, hs, contentOf]
  · intro r1 r2 line1 line2 rec1 rec2 h1 h2 hneq hr1 hr2 hk
    rcases hs1 : searchItems logRegex line1 with _ | t1 <;>
      simp [parseLogLine, hs1] at h1
    rcases hs2 : searchItems logRegex line2 with _ | t2 <;>
      simp [parseLogLine, hs2] at h2
    have e1 : rec1.key
        = (capture 1 t1 ++ '-' :: capture 2 t1 ++ '-' :: capture 3 t1
            ++ '-' :: capture 5 t1) ++ '-' :: r1 := by
      rw [← h1]
      simp [List.append_assoc]
    have e2 : rec2.key
        = (capture 1 t2 ++ '-' :: capture 2 t2 ++ '-' :: capture 3 t2
            ++ '-' :: capture 5 t2) ++ '-' :: r2 := by
      rw [← h2]
      simp [List.append_assoc]
    rw [e1, e2] at hk
    exact hneq (key_suffix_inj hr1 hr2 hk)

/-- Witness for C5 at two concrete parses of the same line with the draws
0 and 1: contents agree, keys differ. -/
theorem parse_pure_fresh_keys_witness :
    (parseLogLine ['0']
        ("10-01 12:00:00.000 123 456 I MyTag: hello").toList).map contentOf
      = (parseLogLine ['1']
          ("10-01 12:00:00.000 123 456 I MyTag: hello").toList).map contentOf
    ∧ ({ timestamp := ("10-01 12:00:00.000").toList, pid := ("123").toList,
         tid := ("456").toList, level := ['I'], tag := ("MyTag").toList,
         message := ("hello").toList,
         key := ("10-01 12:00:00.000-123-456-MyTag-0").toList }
          : LogRecord).key
      ≠ ({ timestamp := ("10-01 12:00:00.000").toList, pid := ("123").toList,
           tid := ("456").toList, level := ['I'], tag := ("MyTag").toList,
           message := ("hello").toList,
           key := ("10-01 12:00:00.000-123-456-MyTag-1").toList }
            : LogRecord).key := by
  constructor
  · exact parse_pure_fresh_keys.1 ['0'] ['1'] _
  · exact parse_pure_fresh_keys.2 ['0'] ['1']
      (("10-01 12:00:00.000 123 456 I MyTag: hello").toList)
      (("10-01 12:00:00.000 123 456 I MyTag: hello").toList)
      _ _ (by decide) (by decide) (by decide) (by decide) (by decide)

/-- C6: parsing the line 10-01 12:00:00.000 123 456 I MyTag: hello yields
timestamp 10-01 12:00:00.000, pid 123, tid 456, level I, tag MyTag and
message hello. -/
theorem parse_example_line :
    parseLogLine ("0.5").toList
      ("10-01 12:00:00.000 123 456 I MyTag: hello").toList
    = some { timestamp := ("10-01 12:00:00.000").toList
             pid := ("123").toList
             tid := ("456").toList
             level := ['I']
             tag := ("MyTag").toList
             message := ("hello").toList
             key := ("10-01 12:00:00.000-123-456-MyTag-0.5").toList } := by
  decide

/-- C7: a line on which the grammar search fails parses to none whatever the
random draw is (no record, no error, parseLogLine is total); and a chunk all
of whose complete lines are unparsable leaves the pending batch, the timer
and the random index untouched and emits nothing - the lines are dropped
silently. -/
theorem unparsable_line_dropped :
    (∀ (r line : Str), searchItems logRegex line = none →
        parseLogLine r line = none)
    ∧ (∀ (rnd : Nat → Str) (now : Nat) (st : WorkerState) (data : Str),
        (∀ l ∈ (splitNL (st.buffer ++ data)).dropLast,
            searchItems logRegex l = none) →
        processChunk rnd now st data
          = ({ st with buffer := (splitNL (st.buffer ++ data)).getLastD [] },
             [])) := by
  constructor
  · intro r line h
    simp [parseLogLine, h]
  · intro rnd now st data hall
    simp only [processChunk, reassemble]
    by_cases hl : 0 < (splitNL (st.buffer ++ data)).dropLast.length
    · rw [if_pos hl, parseLines_all_unparsable rnd st.rndIdx _ hall]
      simp
    · rw [if_neg hl]

/-- Witness for C7: the line garbage is unparsable, and processing the chunk
garbage-newline from the initial worker state changes nothing and emits
nothing. -/
theorem unparsable_line_dropped_witness :
    parseLogLine [] (("garbage").toList) = none
    ∧ processChunk (fun _ => []) 0 initWorker (("garbage\n").toList)
        = (initWorker, []) := by
  constructor
  · exact unparsable_line_dropped.1 [] (("garbage").toList) (by decide)
  · have h := unparsable_line_dropped.2 (fun _ => []) 0 initWorker
      (("garbage\n").toList) (by decide)
    simpa [initWorker, show (splitNL (("garbage\n").toList)).getLastD [] = []
      from by decide] using h

/-- C8: the clear command empties the partial-line buffer and the pending
batch, disarms the timer, emits nothing, and keeps nothing of the previous
state except the position in the random stream: everything buffered before
the clear is discarded. -/
theorem clear_resets_worker (st : WorkerState) :
    clearWorker st
      = ({ buffer := [], parsedLogsBuffer := [], timeoutId := none,
           rndIdx := st.rndIdx }, []) := rfl

/-- C9: whenever one submit takes the pending batch to BATCH_SIZE (200) or
more records, the whole pending batch is emitted as one batch, whatever its
size; in particular for every n at least 200 there is a single submit that
emits one batch of exactly n records - batch size has no upper bound. -/
theorem batch_size_unbounded :
    (∀ (now : Nat) (st : WorkerState) (records : List LogRecord),
        BATCH_SIZE ≤ (st.parsedLogsBuffer ++ records).length →
        (submit now st records).2 = [st.parsedLogsBuffer ++ records])
    ∧ (∀ n : Nat, BATCH_SIZE ≤ n →
        ∃ batch : List LogRecord,
          (submit 0 initWorker (List.replicate n rec0)).2 = [batch]
          ∧ batch.length = n) := by
  have main : ∀ (now : Nat) (st : WorkerState) (records : List LogRecord),
      BATCH_SIZE ≤ (st.parsedLogsBuffer ++ records).length →
      (submit now st records).2 = [st.parsedLogsBuffer ++ records] := by
    intro now st records h
    have h' : BATCH_SIZE ≤ st.parsedLogsBuffer.length + records.length := by
      simpa using h
    have hB : BATCH_SIZE = 200 := rfl
    have hpos : 0 < st.parsedLogsBuffer.length ∨ 0 < records.length := by
      omega
    simp [submit, sendBatch, h', hpos]
  refine ⟨main, ?_⟩
  intro n hn
  refine ⟨List.replicate n rec0, ?_, List.length_replicate n rec0⟩
  have h := main 0 initWorker (List.replicate n rec0)
    (by
      simp only [initWorker, List.nil_append, List.length_replicate]
      exact hn)
  rw [show initWorker.parsedLogsBuffer ++ List.replicate n rec0
      = List.replicate n rec0 from List.nil_append _] at h
  exact h

/-- Witness for C9: a single submit of 300 records from the empty state
emits them all as one batch of 300. -/
theorem batch_size_unbounded_witness :
    (submit 0 initWorker (List.replicate 300 rec0)).2
      = [(initWorker.parsedLogsBuffer ++ List.replicate 300 rec0)] :=
  batch_size_unbounded.1 0 initWorker (List.replicate 300 rec0)
    (by
      simp only [initWorker, List.nil_append, List.length_replicate]
      decide)

/-- C10: the grammar match is not anchored: a line with arbitrary prefix
text before a grammar-shaped substring still parses, yielding the record
built from that substring. -/
theorem parse_unanchored :
    parseLogLine ("0.5").toList
      ("xx10-01 12:00:00.000 123 456 I MyTag: hello").toList
    = some { timestamp := ("10-01 12:00:00.000").toList
             pid := ("123").toList
             tid := ("456").toList
             level := ['I']
             tag := ("MyTag").toList
             message := ("hello").toList
             key := ("10-01 12:00:00.000-123-456-MyTag-0.5").toList } := by
  decide

end QuickAdrLogcat
